import Mathlib

/-!
Shallow embedding of `scrape_books.py` (BooksToScrapeScraper) for checking
the specification's claims.  HTML documents are modelled by the fields the
scraper actually reads; network fetches are modelled by oracles giving the
parsed page returned by each attempt (`none` = requests.RequestException).
-/

namespace BooksScraper

/-- The double-quote character (written via its code point to keep string
handling uniform). -/
def dquote : Char := Char.ofNat 34

/-- Contiguous-sublist test on character lists (an empty needle always
matches, as for Python's `in`). -/
def listInfix (needle : List Char) : List Char → Bool
  | [] => needle.isPrefixOf []
  | c :: t => needle.isPrefixOf (c :: t) || listInfix needle t

/-- Python's substring test `needle in hay` on strings. -/
def strContains (hay needle : String) : Bool :=
  listInfix needle.data hay.data

/-- Python's `str.lower()` (ASCII range), applied characterwise. -/
def strLower (s : String) : String := String.mk (s.data.map Char.toLower)

/-- Python's `str.strip()`: remove leading and trailing whitespace. -/
def strTrim (s : String) : String :=
  String.mk
    (((s.data.dropWhile Char.isWhitespace).reverse.dropWhile
        Char.isWhitespace).reverse)

/-- `self.rating_map` from `BooksToScrapeScraper.__init__`:
`{'One': 1, 'Two': 2, 'Three': 3, 'Four': 4, 'Five': 5}` in insertion order. -/
def rating_map : List (String × Int) :=
  [("One", 1), ("Two", 2), ("Three", 3), ("Four", 4), ("Five", 5)]

/-- The loop body of `extract_rating`: scan the rating map in insertion order
and return the first entry whose lowercased word is a substring of the
lowercased class string. -/
def ratingLookup (rating_class : String) : List (String × Int) → Int
  | [] => 0
  | (word, num) :: rest =>
    if strContains (strLower rating_class) (strLower word) then num
    else ratingLookup rating_class rest

/-- `BooksToScrapeScraper.extract_rating`. -/
def extract_rating (rating_class : String) : Int :=
  ratingLookup rating_class rating_map

/-- The regex search `re.search(r'\((\d+) available\)', text)`: scan for the
first position where a literal `(`, one or more digits, and the literal
text ` available)` occur; return the digit run if found. -/
def findAvail : List Char → Option (List Char)
  | [] => none
  | c :: rest =>
    if c = '(' then
      let ds := rest.takeWhile Char.isDigit
      let rest2 := rest.dropWhile Char.isDigit
      if !ds.isEmpty && (" available)".data.isPrefixOf rest2) then some ds
      else findAvail rest
    else findAvail rest

/-- `BooksToScrapeScraper.extract_availability`. -/
def extract_availability (availability_text : String) : String :=
  if strContains availability_text "In stock" then
    match findAvail availability_text.data with
    | some ds => String.mk ds
    | none => "Unknown"
  else "0"

/-- The `<a>` element found by `article.find('h3').find('a')`: its `title`
and `href` attributes (absent attribute = `none`; `.get` defaults apply). -/
structure TitleLink where
  title : Option String
  href : Option String
deriving DecidableEq

/-- One `article.product_pod` container, reduced to the pieces the scraper
reads.  `titleLink = none` models a missing `h3`/`a` (attribute access on
`None` raises, so the item is skipped); the other fields model presence and
text/class content of the price, star-rating and availability elements. -/
structure Article where
  titleLink : Option TitleLink
  priceText : Option String
  ratingClass : Option (List String)
  availabilityText : Option String
deriving DecidableEq

/-- A parsed listing page: its `product_pod` articles in document order. -/
structure ListingPage where
  articles : List Article
deriving DecidableEq

/-- The `BookRow` dataclass. -/
structure BookRow where
  title : String
  price : String
  rating : Int
  availability : String
  product_url : String
  upc : Option String := none
  category : Option String := none
  description : Option String := none
deriving DecidableEq

/-- Split a URL at the first `://`, returning the scheme part and the rest. -/
def splitScheme : List Char → Option (List Char × List Char)
  | [] => none
  | ':' :: '/' :: '/' :: tail => some ([], tail)
  | c :: rest => (splitScheme rest).map (fun p => (c :: p.1, p.2))

/-- Modelled from the documented behavior of `urllib.parse.urljoin` for
http(s) URLs (a library function, not repository code): the scheme-and-host
part of a URL, used when resolving a root-relative reference. -/
def schemeHost (base : String) : String :=
  match splitScheme base.data with
  | some (sch, rest) =>
      String.mk (sch ++ (':' :: '/' :: '/' :: rest.takeWhile (fun c => c ≠ '/')))
  | none => ""

/-- The base URL truncated after its last `/` (the directory part). -/
def upToLastSlash (base : String) : String :=
  String.mk ((base.data.reverse.dropWhile (fun c => c ≠ '/')).reverse)

/-- Modelled from the documented behavior of `urllib.parse.urljoin`
(a library function, not repository code), restricted to the reference
shapes this scraper produces: an empty reference keeps the base, an
absolute reference replaces it, a root-relative reference is resolved
against the scheme-and-host, and a relative reference replaces the last
path segment of the base. -/
def urljoin (base rel : String) : String :=
  if rel = "" then base
  else if strContains rel "://" then rel
  else if rel.data.head? = some '/' then schemeHost base ++ rel
  else upToLastSlash base ++ rel

/-- The loop body of `scrape_book_listing` for one article: `none` when the
item raised and was skipped (missing `h3`/`a`), otherwise the emitted row.
Mirrors the per-field defaults: title attribute defaults to `''` then
`.strip()`, href defaults to `''`, missing price element gives `"N/A"`,
missing rating element gives class list `[]`, missing availability element
gives text `""`. -/
def parseArticle (base_url : String) (a : Article) : Option BookRow :=
  match a.titleLink with
  | none => none
  | some tl =>
    some
      { title := strTrim (tl.title.getD "")
        price :=
          match a.priceText with
          | some t => strTrim t
          | none => "N/A"
        rating := extract_rating (String.intercalate " " (a.ratingClass.getD []))
        availability :=
          extract_availability ((a.availabilityText.map strTrim).getD "")
        product_url := urljoin base_url (tl.href.getD "") }

/-- `BooksToScrapeScraper.scrape_book_listing`. -/
def scrape_book_listing (page : ListingPage) (base_url : String) : List BookRow :=
  page.articles.filterMap (parseArticle base_url)

/-- Observable outcome of one `get_page` call: number of attempts made,
the backoff sleeps performed (in time units, in order), and the returned
value (`none` = the method returned `None`). -/
structure FetchTrace (α : Type) where
  attempts : Nat
  backoffs : List Nat
  result : Option α
deriving DecidableEq

/-- The `for attempt in range(max_retries)` loop of `get_page`, run over the
remaining attempt indices.  `oracle attempt` is the outcome of the HTTP
request on that attempt (`none` = `requests.RequestException`). -/
def runAttempts {α : Type} (oracle : Nat → Option α) (max_retries : Nat) :
    List Nat → FetchTrace α
  | [] => { attempts := 0, backoffs := [], result := none }
  | attempt :: rest =>
    match oracle attempt with
    | some p => { attempts := 1, backoffs := [], result := some p }
    | none =>
      if attempt < max_retries - 1 then
        let t := runAttempts oracle max_retries rest
        { attempts := t.attempts + 1
          backoffs := 2 ^ attempt :: t.backoffs
          result := t.result }
      else { attempts := 1, backoffs := [], result := none }

/-- `BooksToScrapeScraper.get_page`. -/
def get_page {α : Type} (oracle : Nat → Option α) (max_retries : Nat) :
    FetchTrace α :=
  runAttempts oracle max_retries (List.range max_retries)

/-- A parsed detail page, reduced to the pieces `scrape_book_detail` reads.
`upcRow`: `none` = no `<th>UPC</th>` (upc stays `None`); `some none` =
the `th` exists but has no `td` sibling (attribute access raises);
`some (some t)` = sibling text `t`.  `breadcrumb`: `none` = no breadcrumb
`ul` (raises); `some anchors` = the texts of its `<a>` elements (`[-1]` on
an empty list raises).  `descDiv`: `none` = no description div (description
stays `None`); `some none` = div present but no `<p>` sibling (raises);
`some (some t)` = sibling text `t`. -/
structure DetailPage where
  upcRow : Option (Option String)
  breadcrumb : Option (List String)
  descDiv : Option (Option String)
deriving DecidableEq

/-- The UPC extraction step of `scrape_book_detail` (`Except.error` = the
Python statement raised). -/
def upcField (p : DetailPage) : Except Unit (Option String) :=
  match p.upcRow with
  | none => Except.ok none
  | some none => Except.error ()
  | some (some t) => Except.ok (some (strTrim t))

/-- The category extraction step of `scrape_book_detail`. -/
def catField (p : DetailPage) : Except Unit (Option String) :=
  match p.breadcrumb with
  | none => Except.error ()
  | some [] => Except.error ()
  | some (a :: rest) =>
    Except.ok (some (strTrim ((a :: rest).getLast (List.cons_ne_nil a rest))))

/-- The description extraction step of `scrape_book_detail`. -/
def descField (p : DetailPage) : Except Unit (Option String) :=
  match p.descDiv with
  | none => Except.ok none
  | some none => Except.error ()
  | some (some t) => Except.ok (some (strTrim t))

/-- The whole `try` block of `scrape_book_detail`: the three extractions in
program order; the first raise aborts the block, before any assignment to
the record takes place. -/
def detailFields (p : DetailPage) :
    Except Unit (Option String × Option String × Option String) := do
  let u ← upcField p
  let c ← catField p
  let d ← descField p
  return (u, c, d)

/-- `BooksToScrapeScraper.scrape_book_detail`.  `oracle url attempt` gives
the parsed page for that fetch attempt; `get_page` is called with its
default `max_retries = 3`. -/
def scrape_book_detail (oracle : String → Nat → Option DetailPage)
    (book : BookRow) : BookRow :=
  match (get_page (oracle book.product_url) 3).result with
  | none => book
  | some page =>
    match detailFields page with
    | Except.error _ => book
    | Except.ok (u, c, d) =>
      { book with upc := u, category := c, description := d }

/-- The fixed catalogue base URL from `scrape_books`. -/
def base_url : String := "https://books.toscrape.com/catalogue/"

/-- The listing-page URL `f"{base_url}page-{page_num}.html"`. -/
def pageUrl (page_num : Nat) : String :=
  base_url ++ "page-" ++ toString page_num ++ ".html"

/-- Observable outcome of one `scrape_books` run: how many listing-page
`get_page` calls were issued (one per page number, retries not counted)
and the accumulated records. -/
structure CrawlTrace where
  listingFetches : Nat
  records : List BookRow
deriving DecidableEq

/-- The `for page_num in range(1, max_pages + 1)` loop of `scrape_books`,
run over the remaining page numbers. -/
def crawlPages (listingOracle : String → Nat → Option ListingPage)
    (detailOracle : String → Nat → Option DetailPage) (deep : Bool) :
    List Nat → CrawlTrace
  | [] => { listingFetches := 0, records := [] }
  | p :: rest =>
    let t := crawlPages listingOracle detailOracle deep rest
    match (get_page (listingOracle (pageUrl p)) 3).result with
    | none => { listingFetches := t.listingFetches + 1, records := t.records }
    | some page =>
      let books := scrape_book_listing page base_url
      let books2 := if deep then books.map (scrape_book_detail detailOracle)
                    else books
      { listingFetches := t.listingFetches + 1, records := books2 ++ t.records }

/-- `BooksToScrapeScraper.scrape_books`. -/
def scrape_books (listingOracle : String → Nat → Option ListingPage)
    (detailOracle : String → Nat → Option DetailPage)
    (max_pages : Nat) (deep : Bool) : CrawlTrace :=
  crawlPages listingOracle detailOracle deep (List.range' 1 max_pages)

/-- What one listing page contributes to the accumulator: nothing when its
fetch fails, its extracted rows otherwise. -/
def perPage (listingOracle : String → Nat → Option ListingPage) (p : Nat) :
    List BookRow :=
  match (get_page (listingOracle (pageUrl p)) 3).result with
  | none => []
  | some page => scrape_book_listing page base_url

/-- Observable behavior of `main` after scraping: which messages were
printed, whether the CSV sink ran, and the process exit status. -/
structure MainBehavior where
  printedNoBooks : Bool
  savedCsv : Bool
  printedSummary : Bool
  exitCode : Nat
deriving DecidableEq

/-- The tail of `main`: on an empty scrape result it prints the
"No books were scraped" message and plain-`return`s (process exit 0);
otherwise it saves, prints sample data and the completion summary, and the
process also exits 0. -/
def mainBehavior (books : List BookRow) : MainBehavior :=
  if books.isEmpty then
    { printedNoBooks := true, savedCsv := false, printedSummary := false
      exitCode := 0 }
  else
    { printedNoBooks := false, savedCsv := true, printedSummary := true
      exitCode := 0 }

/-- A character at which an unquoted CSV field ends: the delimiter or a
line-terminator character. -/
def stopChar (c : Char) : Bool := c == ',' || c == '\r' || c == '\n'

/-- Modelled from the documented behavior of the `csv` module's
QUOTE_MINIMAL dialect (a library, not repository code): a field is quoted
iff it contains the delimiter, the quote character, or a line-terminator
character. -/
def needsQuote (c : Char) : Bool := stopChar c || c == dquote

/-- Double each quote character (csv `doublequote=True`). -/
def escQuoted (cs : List Char) : List Char :=
  cs.flatMap (fun c => if c = dquote then [dquote, dquote] else [c])

/-- Serialize one field per the csv QUOTE_MINIMAL rules. -/
def encodeFieldChars (cs : List Char) : List Char :=
  if cs.any needsQuote then dquote :: (escQuoted cs ++ [dquote])
  else cs

/-- Comma-join the serialized fields of one row. -/
def encFields : List (List Char) → List Char
  | [] => []
  | [f] => encodeFieldChars f
  | f :: g :: fs => encodeFieldChars f ++ ',' :: encFields (g :: fs)

/-- One serialized CSV row, terminated by the default `\r\n`. -/
def encodeRowChars (fields : List (List Char)) : List Char :=
  encFields fields ++ ['\r', '\n']

/-- A whole CSV file: the serialized rows in order (the file is opened in
`'w'` mode, so this is the entire resulting file content). -/
def csvFileChars : List (List (List Char)) → List Char
  | [] => []
  | r :: rs => encodeRowChars r ++ csvFileChars rs

/-- The `fieldnames` list of `save_to_csv`. -/
def headerFields : List String :=
  ["title", "price", "rating", "availability", "product_url", "upc",
   "category", "description"]

/-- The dictionary written for one book by `save_to_csv`, in column order;
`None` optional fields serialize via `x or ''` as the empty string, and the
integer rating is serialized by `str`. -/
def csvRow (b : BookRow) : List String :=
  [b.title, b.price, toString b.rating, b.availability, b.product_url,
   b.upc.getD "", b.category.getD "", b.description.getD ""]

/-- `BooksToScrapeScraper.save_to_csv`: the full file content written
(header row, then one row per book). -/
def save_to_csv (books : List BookRow) : String :=
  String.mk (csvFileChars
    ((headerFields :: books.map csvRow).map (fun r => r.map String.data)))

/-- Modelled from the documented behavior of the `csv` module's reader
(a library, not repository code): parse one unquoted field, stopping at a
delimiter or line terminator. -/
def parseUnquoted : List Char → List Char × List Char
  | [] => ([], [])
  | c :: rest =>
    if stopChar c then ([], c :: rest)
    else
      let q := parseUnquoted rest
      (c :: q.1, q.2)

/-- Parse the body of a quoted field (after the opening quote): a doubled
quote stands for one literal quote, a single quote closes the field. -/
def parseQuoted : List Char → List Char × List Char
  | [] => ([], [])
  | c :: rest =>
    if c = dquote then
      match rest with
      | [] => ([], [])
      | c2 :: rest2 =>
        if c2 = dquote then
          let q := parseQuoted rest2
          (dquote :: q.1, q.2)
        else ([], rest)
    else
      let q := parseQuoted rest
      (c :: q.1, q.2)

/-- Parse one field: quoted if it starts with the quote character. -/
def parseField (cs : List Char) : List Char × List Char :=
  match cs with
  | [] => ([], [])
  | c :: rest => if c = dquote then parseQuoted rest else parseUnquoted (c :: rest)

theorem parseUnquoted_len (cs : List Char) :
    ((parseUnquoted cs).2).length ≤ cs.length := by
  induction cs with
  | nil => simp [parseUnquoted]
  | cons c rest ih =>
    simp only [parseUnquoted]
    split
    · simp
    · simpa using Nat.le_succ_of_le ih

theorem parseQuoted_len (cs : List Char) :
    ((parseQuoted cs).2).length ≤ cs.length := by
  induction cs using parseQuoted.induct with
  | case1 => simp [parseQuoted]
  | case2 => simp [parseQuoted]
  | case3 rest2 ih =>
    have h : parseQuoted (dquote :: dquote :: rest2) =
        (dquote :: (parseQuoted rest2).1, (parseQuoted rest2).2) := by
      simp [parseQuoted]
    rw [h]; simp; omega
  | case4 c2 rest2 hne =>
    have h : parseQuoted (dquote :: c2 :: rest2) = ([], c2 :: rest2) := by
      simp [parseQuoted, hne]
    rw [h]; simp
  | case5 c2 rest2 hne ih =>
    have h : parseQuoted (c2 :: rest2) =
        (c2 :: (parseQuoted rest2).1, (parseQuoted rest2).2) := by
      rw [parseQuoted.eq_def]
      simp [hne]
    rw [h]; simp; omega

theorem parseField_len (cs : List Char) :
    ((parseField cs).2).length ≤ cs.length := by
  match cs with
  | [] => simp [parseField]
  | c :: rest =>
    simp only [parseField]
    split
    · exact Nat.le_succ_of_le (parseQuoted_len rest)
    · exact parseUnquoted_len (c :: rest)

/-- Parse one record: fields separated by commas, up to (and excluding) the
line terminator. -/
def parseRecord (cs : List Char) : List (List Char) × List Char :=
  if h : (parseField cs).2.head? = some ',' then
    ((parseField cs).1 :: (parseRecord ((parseField cs).2.tail)).1,
     (parseRecord ((parseField cs).2.tail)).2)
  else ([(parseField cs).1], (parseField cs).2)
termination_by cs.length
decreasing_by
  have hl := parseField_len cs
  rcases hp : (parseField cs).2 with _ | ⟨c, t⟩
  · simp [hp] at h
  · rw [hp] at hl
    simp at hl ⊢
    omega

theorem parseRecord_len (n : Nat) : ∀ cs : List Char, cs.length ≤ n →
    ((parseRecord cs).2).length ≤ cs.length := by
  induction n with
  | zero =>
    intro cs h
    have hnil : cs = [] := List.length_eq_zero.mp (Nat.le_zero.mp h)
    subst hnil
    rw [parseRecord.eq_def]
    simp [parseField]
  | succ n ih =>
    intro cs h
    rw [parseRecord.eq_def]
    by_cases hc : (parseField cs).2.head? = some ','
    · rw [dif_pos hc]
      rcases hp : (parseField cs).2 with _ | ⟨c, t⟩
      · rw [hp] at hc; simp at hc
      · have hl := parseField_len cs
        rw [hp] at hl
        simp at hl
        have ht := ih t (by omega)
        simp
        omega
    · rw [dif_neg hc]
      simpa using parseField_len cs

/-- Parse a CSV file into records, consuming `\r\n`, `\r` or `\n`
terminators. -/
def parseRecords (cs : List Char) : List (List (List Char)) :=
  if cs.isEmpty then []
  else if h1 : (parseRecord cs).2.head? = some '\r' then
    if h2 : (parseRecord cs).2.tail.head? = some '\n' then
      (parseRecord cs).1 :: parseRecords ((parseRecord cs).2.tail.tail)
    else (parseRecord cs).1 :: parseRecords ((parseRecord cs).2.tail)
  else if h3 : (parseRecord cs).2.head? = some '\n' then
    (parseRecord cs).1 :: parseRecords ((parseRecord cs).2.tail)
  else [(parseRecord cs).1]
termination_by cs.length
decreasing_by
  all_goals
    have hl := parseRecord_len cs.length cs (Nat.le_refl _)
    rcases hp : (parseRecord cs).2 with _ | ⟨c, t⟩ <;>
      simp_all [List.length_tail] <;> omega

/-- `csv.DictReader`-level view of a file: the list of its records. -/
def readCsv (file : String) : List (List String) :=
  (parseRecords file.data).map (fun r => r.map String.mk)

theorem data_mk (l : List Char) : (String.mk l).data = l := rfl

theorem mk_data (s : String) : String.mk s.data = s := rfl

theorem listInfix_iff (n hay : List Char) : listInfix n hay = true ↔ n <:+: hay := by
  induction hay with
  | nil => simp [listInfix, List.isPrefixOf_iff_prefix]
  | cons c t ih =>
    simp [listInfix, List.isPrefixOf_iff_prefix, ih, List.infix_cons_iff]

theorem ratingLookup_eq_zero (t : String) :
    ∀ l : List (String × Int),
      (∀ p ∈ l, strContains (strLower t) (strLower p.1) = false) →
      ratingLookup t l = 0 := by
  intro l
  induction l with
  | nil => intro _; rfl
  | cons p rest ih =>
    intro h
    obtain ⟨w, n⟩ := p
    have hc := h (w, n) (List.mem_cons_self _ _)
    simp only at hc
    simp only [ratingLookup, hc, Bool.false_eq_true, if_false]
    exact ih fun q hq => h q (List.mem_cons_of_mem _ hq)

/-- C1: corrected.  `extract_rating` does a case-insensitive substring scan
of the rating map in insertion order, not an exact-word lookup: each of the
five recognized words maps to its fixed integer, an input containing none
of the five words (case-insensitively, as a substring) maps to 0, and an
input whose lowercasing contains `"one"` maps to 1 even when it is not one
of the five words. -/
theorem C1_rating_amended :
    (extract_rating "One" = 1 ∧ extract_rating "Two" = 2 ∧
     extract_rating "Three" = 3 ∧ extract_rating "Four" = 4 ∧
     extract_rating "Five" = 5) ∧
    (∀ t : String,
      (∀ p ∈ rating_map, strContains (strLower t) (strLower p.1) = false) →
      extract_rating t = 0) ∧
    (∀ t : String, strContains (strLower t) "one" = true →
      extract_rating t = 1) := by
  refine ⟨by decide, ?_, ?_⟩
  · intro t h
    exact ratingLookup_eq_zero t rating_map h
  · intro t h
    have h1 : strLower "One" = "one" := by decide
    simp only [extract_rating, rating_map, ratingLookup, h1, h, if_true]

/-- C1 witness: an input containing none of the five words maps to 0; a
class string containing the word One (but not equal to it) maps to 1. -/
theorem C1_rating_witness :
    extract_rating "something else" = 0 ∧ extract_rating "star-rating One" = 1 :=
  ⟨C1_rating_amended.2.1 "something else" (by decide),
   C1_rating_amended.2.2 "star-rating One" (by decide)⟩

/-- C1 counterexample: the actual class string `"star-rating Three"` is not
one of the five recognized words, yet `extract_rating` returns 3, not the 0
the claim requires for any other input string. -/
theorem C1_rating_counterexample :
    extract_rating "star-rating Three" = 3 ∧
    "star-rating Three" ∉ ["One", "Two", "Three", "Four", "Five"] := by
  decide

/-- C3: corrected.  On a zero-record run `main` prints the
"No books were scraped" error message and returns without saving or
printing the completion summary, but it plain-returns, so the process
exits with status 0 — the same exit status as the success path, not a
non-zero-equivalent one. -/
theorem C3_zero_records_amended :
    (mainBehavior []).printedNoBooks = true ∧
    (mainBehavior []).savedCsv = false ∧
    (mainBehavior []).printedSummary = false ∧
    (mainBehavior []).exitCode = 0 ∧
    (∀ (b : BookRow) (bs : List BookRow),
      (mainBehavior (b :: bs)).printedSummary = true ∧
      (mainBehavior (b :: bs)).exitCode = 0) :=
  ⟨rfl, rfl, rfl, rfl, fun _ _ => ⟨rfl, rfl⟩⟩

/-- C3 counterexample: the zero-record run prints its error message but its
exit status equals the success path's exit status (both 0), refuting the
claimed non-zero-equivalent exit. -/
theorem C3_zero_records_counterexample :
    (mainBehavior []).printedNoBooks = true ∧
    (mainBehavior []).exitCode =
      (mainBehavior [{ title := "t", price := "p", rating := 1,
                       availability := "1", product_url := "u" }]).exitCode := by
  refine ⟨rfl, ?_⟩
  rfl

/-- C10: confirmed.  An item whose title link parses is always emitted,
even when the price element is absent (price defaults to the literal
`"N/A"`) or the availability element is absent (availability becomes
`"0"`); the emitted row appears in the Listing Extractor's output for any
page containing the item. -/
theorem C10_item_defaults :
    ∀ (base : String) (a : Article) (tl : TitleLink),
      a.titleLink = some tl →
      (parseArticle base a).isSome = true ∧
      (a.priceText = none →
        (parseArticle base a).map BookRow.price = some "N/A") ∧
      (a.availabilityText = none →
        (parseArticle base a).map BookRow.availability = some "0") ∧
      (∀ (page : ListingPage) (r : BookRow),
        a ∈ page.articles → parseArticle base a = some r →
        r ∈ scrape_book_listing page base) := by
  intro base a tl h
  refine ⟨?_, ?_, ?_, ?_⟩
  · simp [parseArticle, h]
  · intro hp
    simp [parseArticle, h, hp]
  · intro ha
    simp only [parseArticle, h, ha, Option.map_none, Option.getD_none,
      Option.map_some]
    have : extract_availability "" = "0" := by decide
    simp [this]
  · intro page r hmem hpr
    exact List.mem_filterMap.mpr ⟨a, hmem, hpr⟩

/-- C10 witness: a concrete item with a parsed title link, no price
element, and no availability element is emitted with price `"N/A"` and
availability `"0"`. -/
theorem C10_item_defaults_witness :
    ((parseArticle "https://b/"
        { titleLink := some { title := some "T", href := some "p.html" },
          priceText := none, ratingClass := none,
          availabilityText := none }).map BookRow.price = some "N/A") ∧
    ((parseArticle "https://b/"
        { titleLink := some { title := some "T", href := some "p.html" },
          priceText := none, ratingClass := none,
          availabilityText := none }).map BookRow.availability = some "0") :=
  ⟨(C10_item_defaults "https://b/" _ ⟨some "T", some "p.html"⟩ rfl).2.1 rfl,
   (C10_item_defaults "https://b/" _ ⟨some "T", some "p.html"⟩ rfl).2.2.1 rfl⟩

/-- C4: corrected.  Every record emitted by the Listing Extractor has its
title equal to the trimmed `title` attribute of the item's link — which may
be empty, since no non-emptiness check is performed — its detail URL equal
to the join of the base URL with the link's `href`, and its optional fields
absent. -/
theorem C4_listing_fields_amended :
    ∀ (b : String) (a : Article) (r : BookRow),
      parseArticle b a = some r →
      a.titleLink.map (fun tl => strTrim (tl.title.getD "")) = some r.title ∧
      a.titleLink.map (fun tl => urljoin b (tl.href.getD "")) =
        some r.product_url ∧
      r.upc = none ∧ r.category = none ∧ r.description = none := by
  intro b a r h
  rcases ha : a.titleLink with _ | tl
  · simp [parseArticle, ha] at h
  · simp only [parseArticle, ha] at h
    obtain rfl := (Option.some_inj.mp h).symm
    simp [ha]

/-- C4 counterexample: an item whose title link carries a whitespace-only
title attribute is still emitted, and the emitted record's title is empty
after trimming, refuting the claimed non-emptiness invariant. -/
theorem C4_listing_fields_counterexample :
    (scrape_book_listing
        ⟨[{ titleLink := some { title := some " ", href := some "x.html" },
            priceText := some "£1",
            ratingClass := some ["star-rating", "One"],
            availabilityText := none }]⟩ "https://b/").map BookRow.title
      = [""] := by
  decide

/-- C4 witness: a concrete emitted record whose fields are as the amended
claim describes. -/
theorem C4_listing_fields_witness :
    (Article.mk (some ⟨some " T ", some "p.html"⟩) (some " £9 ")
        (some ["star-rating", "Two"]) (some "In stock")).titleLink.map
        (fun tl => strTrim (tl.title.getD "")) =
      some (BookRow.mk "T" "£9" 2 "Unknown" "https://b/p.html"
        none none none).title ∧
    (Article.mk (some ⟨some " T ", some "p.html"⟩) (some " £9 ")
        (some ["star-rating", "Two"]) (some "In stock")).titleLink.map
        (fun tl => urljoin "https://b/" (tl.href.getD "")) =
      some (BookRow.mk "T" "£9" 2 "Unknown" "https://b/p.html"
        none none none).product_url ∧
    (BookRow.mk "T" "£9" 2 "Unknown" "https://b/p.html"
        none none none).upc = none ∧
    (BookRow.mk "T" "£9" 2 "Unknown" "https://b/p.html"
        none none none).category = none ∧
    (BookRow.mk "T" "£9" 2 "Unknown" "https://b/p.html"
        none none none).description = none :=
  C4_listing_fields_amended "https://b/" _ _ (by decide)

/-- C2: corrected.  The Detail Extractor's exception handler wraps the
whole three-field extraction block, not each field: when a later field's
extraction raises, the values extracted earlier are discarded and the
record is returned unchanged, so an identifier that was successfully
extracted before the failure is *not* carried on the returned record. -/
theorem C2_detail_scope_amended :
    ∀ (oracle : String → Nat → Option DetailPage) (b : BookRow)
      (page : DetailPage),
      (get_page (oracle b.product_url) 3).result = some page →
      detailFields page = Except.error () →
      scrape_book_detail oracle b = b := by
  intro oracle b page hf he
  simp [scrape_book_detail, hf, he]

/-- C2 counterexample: a detail page where the UPC extraction succeeds
(yielding "ABC") but the breadcrumb extraction raises; the returned record
does not carry the identifier — its `upc` stays absent — refuting the
claimed per-field catch scope. -/
theorem C2_detail_scope_counterexample :
    upcField { upcRow := some (some "ABC"), breadcrumb := none,
               descDiv := none } = Except.ok (some "ABC") ∧
    detailFields { upcRow := some (some "ABC"), breadcrumb := none,
                   descDiv := none } = Except.error () ∧
    (scrape_book_detail
        (fun _ _ => some { upcRow := some (some "ABC"), breadcrumb := none,
                           descDiv := none })
        { title := "t", price := "p", rating := 0, availability := "0",
          product_url := "u" }).upc = none := by
  refine ⟨rfl, rfl, rfl⟩

/-- C2 witness: on a concrete record and failing detail page the extractor
returns the input record unchanged. -/
theorem C2_detail_scope_witness :
    scrape_book_detail
        (fun _ _ => some { upcRow := some (some "ABC"), breadcrumb := none,
                           descDiv := none })
        { title := "t", price := "p", rating := 0, availability := "0",
          product_url := "u" } =
      { title := "t", price := "p", rating := 0, availability := "0",
        product_url := "u" } :=
  C2_detail_scope_amended _ _
    { upcRow := some (some "ABC"), breadcrumb := none, descDiv := none }
    rfl rfl

/-- C7: corrected.  The Detail Extractor never changes the listing fields
(title, price, rating, availability, detail URL), returns the input record
unchanged when the fetch fails, and otherwise either returns it unchanged
(extraction raised) or overwrites all three optional fields with the newly
extracted values — which may set a previously present optional field back
to absent, so the absent-to-present monotonicity only holds for records
whose optional fields start out absent (as produced by the Listing
Extractor). -/
theorem C7_detail_monotonic_amended :
    ∀ (oracle : String → Nat → Option DetailPage) (b : BookRow),
      (scrape_book_detail oracle b).title = b.title ∧
      (scrape_book_detail oracle b).price = b.price ∧
      (scrape_book_detail oracle b).rating = b.rating ∧
      (scrape_book_detail oracle b).availability = b.availability ∧
      (scrape_book_detail oracle b).product_url = b.product_url ∧
      ((get_page (oracle b.product_url) 3).result = none →
        scrape_book_detail oracle b = b) ∧
      (scrape_book_detail oracle b = b ∨
        ∃ page u c d,
          (get_page (oracle b.product_url) 3).result = some page ∧
          detailFields page = Except.ok (u, c, d) ∧
          scrape_book_detail oracle b =
            { b with upc := u, category := c, description := d }) := by
  intro oracle b
  rcases hf : (get_page (oracle b.product_url) 3).result with _ | page
  · simp [scrape_book_detail, hf]
  · rcases hd : detailFields page with e | ⟨u, c, d⟩
    · cases e
      simp [scrape_book_detail, hf, hd]
    · have hr : scrape_book_detail oracle b =
          { b with upc := u, category := c, description := d } := by
        simp [scrape_book_detail, hf, hd]
      refine ⟨by simp [hr], by simp [hr], by simp [hr], by simp [hr],
        by simp [hr], by intro hn; exact absurd hn (by simp),
        Or.inr ⟨page, u, c, d, rfl, hd, hr⟩⟩

/-- C7 counterexample: a record that already carries an identifier, run
through the Detail Extractor against a page lacking the UPC row (all other
extractions succeeding), comes back with `upc` absent — a present-to-absent
transition the claim forbids. -/
theorem C7_detail_monotonic_counterexample :
    ({ title := "t", price := "p", rating := 1, availability := "1",
       product_url := "u", upc := some "OLD" } : BookRow).upc = some "OLD" ∧
    (scrape_book_detail
        (fun _ _ => some { upcRow := none, breadcrumb := some ["Books"],
                           descDiv := none })
        { title := "t", price := "p", rating := 1, availability := "1",
          product_url := "u", upc := some "OLD" }).upc = none := by
  refine ⟨rfl, rfl⟩

/-- C7 witness: when every fetch attempt fails, the Detail Extractor
returns a concrete input record entirely unchanged. -/
theorem C7_detail_monotonic_witness :
    scrape_book_detail (fun _ _ => none)
        { title := "t", price := "p", rating := 1, availability := "1",
          product_url := "u" } =
      { title := "t", price := "p", rating := 1, availability := "1",
        product_url := "u" } :=
  (C7_detail_monotonic_amended (fun _ _ => none) _).2.2.2.2.2.1 rfl

theorem runAttempts_fail_cons {α : Type} (m a : Nat) (rest : List Nat) :
    runAttempts (fun _ => (none : Option α)) m (a :: rest) =
      if a < m - 1 then
        { attempts :=
            (runAttempts (fun _ => (none : Option α)) m rest).attempts + 1,
          backoffs :=
            2 ^ a ::
              (runAttempts (fun _ => (none : Option α)) m rest).backoffs,
          result := (runAttempts (fun _ => (none : Option α)) m rest).result }
      else { attempts := 1, backoffs := [], result := none } := rfl

theorem runAttempts_all_fail {α : Type} (m : Nat) :
    ∀ n s : Nat, 1 ≤ n → s + n = m →
      runAttempts (fun _ => (none : Option α)) m (List.range' s n) =
        { attempts := n,
          backoffs := (List.range' s (n - 1)).map (fun a => 2 ^ a),
          result := none } := by
  intro n
  induction n with
  | zero => intro s h; omega
  | succ k ih =>
    intro s _ hs
    cases k with
    | zero =>
      have hlt : ¬ (s < m - 1) := by omega
      rw [List.range'_succ, runAttempts_fail_cons, if_neg hlt]
      simp
    | succ j =>
      have hlt : s < m - 1 := by omega
      rw [List.range'_succ, runAttempts_fail_cons, if_pos hlt,
        ih (s + 1) (by omega) (by omega)]
      simp [List.range'_succ]

theorem runAttempts_result_none {α : Type}
    (oracle : Nat → Option α) (h : ∀ a, oracle a = none) (m : Nat) :
    ∀ l : List Nat, (runAttempts oracle m l).result = none := by
  intro l
  induction l with
  | nil => rfl
  | cons a rest ih =>
    simp only [runAttempts, h a]
    split
    · simpa using ih
    · rfl

theorem crawlPages_fetch_count (lo : String → Nat → Option ListingPage)
    (dOr : String → Nat → Option DetailPage) (deep : Bool) :
    ∀ ps : List Nat, (crawlPages lo dOr deep ps).listingFetches = ps.length := by
  intro ps
  induction ps with
  | nil => rfl
  | cons p rest ih =>
    simp only [crawlPages]
    rcases h : (get_page (lo (pageUrl p)) 3).result with _ | page <;> simp [h, ih]

theorem crawlPages_records_shallow (lo : String → Nat → Option ListingPage)
    (dOr : String → Nat → Option DetailPage) :
    ∀ ps : List Nat,
      (crawlPages lo dOr false ps).records = (ps.map (perPage lo)).flatten := by
  intro ps
  induction ps with
  | nil => rfl
  | cons p rest ih =>
    simp only [crawlPages]
    rcases h : (get_page (lo (pageUrl p)) 3).result with _ | page <;>
      simp [h, ih, perPage]

theorem crawlPages_all_fail (lo : String → Nat → Option ListingPage)
    (dOr : String → Nat → Option DetailPage) (deep : Bool)
    (hfail : ∀ u a, lo u a = none) :
    ∀ ps : List Nat, (crawlPages lo dOr deep ps).records = [] := by
  intro ps
  induction ps with
  | nil => rfl
  | cons p rest ih =>
    have hres : (get_page (lo (pageUrl p)) 3).result = none :=
      runAttempts_result_none (lo (pageUrl p)) (hfail (pageUrl p)) 3 _
    simp only [crawlPages, hres]
    exact ih

/-- C5: confirmed.  When every attempt fails transiently, `get_page` with
`max_retries = max_attempts ≥ 1` performs exactly `max_attempts` attempts,
sleeps `2^attempt` time units after each failed attempt except the last,
and returns `None` rather than raising; and the orchestrator treats a
failed page fetch as a skip: with an always-failing fetch it still visits
every page, accumulates no records, and completes normally. -/
theorem C5_retry_exhaustion :
    ∀ max_attempts : Nat, 1 ≤ max_attempts →
      ((get_page (fun _ => (none : Option ListingPage)) max_attempts).attempts
          = max_attempts ∧
       (get_page (fun _ => (none : Option ListingPage)) max_attempts).backoffs
          = (List.range (max_attempts - 1)).map (fun a => 2 ^ a) ∧
       (get_page (fun _ => (none : Option ListingPage)) max_attempts).result
          = none) ∧
      (∀ (lo : String → Nat → Option ListingPage)
         (dOr : String → Nat → Option DetailPage) (mp : Nat) (deep : Bool),
        (∀ u a, lo u a = none) →
        (scrape_books lo dOr mp deep).records = [] ∧
        (scrape_books lo dOr mp deep).listingFetches = mp) := by
  intro m hm
  constructor
  · have h := runAttempts_all_fail (α := ListingPage) m m 0 hm (by omega)
    rw [get_page, List.range_eq_range', h]
    refine ⟨rfl, by rw [List.range_eq_range'], rfl⟩
  · intro lo dOr mp deep hfail
    refine ⟨crawlPages_all_fail lo dOr deep hfail _, ?_⟩
    rw [scrape_books, crawlPages_fetch_count]
    simp

/-- C5 witness: three always-failing attempts give three attempts, backoffs
1 and 2 time units, a `None` result, and an empty two-page crawl. -/
theorem C5_retry_exhaustion_witness :
    (get_page (fun _ => (none : Option ListingPage)) 3).attempts = 3 ∧
    (get_page (fun _ => (none : Option ListingPage)) 3).backoffs =
      (List.range 2).map (fun a => 2 ^ a) ∧
    (scrape_books (fun _ _ => none) (fun _ _ => none) 2 false).records = [] ∧
    (scrape_books (fun _ _ => none) (fun _ _ => none) 2 false).listingFetches
      = 2 :=
  ⟨(C5_retry_exhaustion 3 (by omega)).1.1,
   (C5_retry_exhaustion 3 (by omega)).1.2.1,
   ((C5_retry_exhaustion 3 (by omega)).2 _ _ 2 false (fun _ _ => rfl)).1,
   ((C5_retry_exhaustion 3 (by omega)).2 _ _ 2 false (fun _ _ => rfl)).2⟩

/-- C6: confirmed.  For every `max_pages ≥ 1` the orchestrator issues
exactly `max_pages` listing `get_page` calls (retries not counted), and in
shallow mode the returned sequence is the concatenation, in page order, of
what each page contributes (its listing extraction result, or nothing when
its fetch failed), so its length is the sum of the per-page counts. -/
theorem C6_orchestrator_shape :
    ∀ (lo : String → Nat → Option ListingPage)
      (dOr : String → Nat → Option DetailPage) (m : Nat), 1 ≤ m →
      (∀ deep, (scrape_books lo dOr m deep).listingFetches = m) ∧
      (scrape_books lo dOr m false).records =
        ((List.range' 1 m).map (perPage lo)).flatten ∧
      (scrape_books lo dOr m false).records.length =
        ((List.range' 1 m).map (fun p => (perPage lo p).length)).sum := by
  intro lo dOr m _
  refine ⟨fun deep => ?_, ?_, ?_⟩
  · rw [scrape_books, crawlPages_fetch_count]
    simp
  · exact crawlPages_records_shallow lo dOr _
  · rw [scrape_books, crawlPages_records_shallow, List.length_flatten]
    simp only [List.map_map]
    rfl

/-- C6 witness: a concrete two-page crawl against an always-failing fetch
oracle issues exactly two listing fetches and returns the (empty)
concatenation of the two per-page results. -/
theorem C6_orchestrator_shape_witness :
    (scrape_books (fun _ _ => none) (fun _ _ => none) 2 false).listingFetches
        = 2 ∧
    (scrape_books (fun _ _ => none) (fun _ _ => none) 2 false).records =
      ((List.range' 1 2).map (perPage (fun _ _ => none))).flatten :=
  ⟨(C6_orchestrator_shape (fun _ _ => none) (fun _ _ => none) 2 (by omega)).1
      false,
   (C6_orchestrator_shape (fun _ _ => none) (fun _ _ => none) 2
      (by omega)).2.1⟩

theorem findAvail_sound :
    ∀ cs ds : List Char, findAvail cs = some ds →
      ds ≠ [] ∧ ds.all Char.isDigit = true ∧
      ('(' :: (ds ++ " available)".data)) <:+: cs := by
  intro cs
  induction cs with
  | nil => intro ds h; simp [findAvail] at h
  | cons c rest ih =>
    intro ds h
    by_cases hc : c = '('
    · rw [findAvail, if_pos hc] at h
      by_cases hcond :
          (!(rest.takeWhile Char.isDigit).isEmpty &&
            (" available)".data.isPrefixOf (rest.dropWhile Char.isDigit)))
            = true
      · rw [if_pos hcond] at h
        obtain rfl : rest.takeWhile Char.isDigit = ds := by
          simpa using h
        rw [Bool.and_eq_true] at hcond
        obtain ⟨hne, hpre⟩ := hcond
        refine ⟨by simpa using hne, List.all_takeWhile, ?_⟩
        obtain ⟨tail, htail⟩ :=
          List.isPrefixOf_iff_prefix.mp hpre
        refine ⟨[], tail, ?_⟩
        subst hc
        simp only [List.nil_append, List.cons_append, List.cons.injEq,
          true_and]
        calc rest.takeWhile Char.isDigit ++ " available)".data ++ tail
            = rest.takeWhile Char.isDigit ++ (" available)".data ++ tail) :=
              by simp
          _ = rest.takeWhile Char.isDigit ++ rest.dropWhile Char.isDigit :=
              by rw [htail]
          _ = rest := List.takeWhile_append_dropWhile Char.isDigit rest
      · rw [if_neg hcond] at h
        exact ⟨(ih ds h).1, (ih ds h).2.1, List.infix_cons (ih ds h).2.2⟩
    · rw [findAvail, if_neg hc] at h
      exact ⟨(ih ds h).1, (ih ds h).2.1, List.infix_cons (ih ds h).2.2⟩

/-- C8: corrected.  Availability parsing is total with three cases, but the
digit case additionally requires the (case-sensitive) stock wording: an
input containing `"In stock"` whose text matches the `"(N available)"`
pattern returns the digits; an input containing `"In stock"` with no such
match returns `"Unknown"`; any other input — including an absent element,
which arrives as the empty string, and including an input that has a
parenthesized count but lacks `"In stock"` — returns `"0"`. -/
theorem C8_availability_amended :
    ∀ t : String,
      (strContains t "In stock" = false → extract_availability t = "0") ∧
      (strContains t "In stock" = true → findAvail t.data = none →
        extract_availability t = "Unknown") ∧
      (∀ ds : List Char, strContains t "In stock" = true →
        findAvail t.data = some ds →
        extract_availability t = String.mk ds ∧ ds ≠ [] ∧
        ds.all Char.isDigit = true ∧
        strContains t (String.mk ('(' :: (ds ++ " available)".data)))
          = true) := by
  intro t
  refine ⟨?_, ?_, ?_⟩
  · intro h
    simp [extract_availability, h]
  · intro h hf
    simp [extract_availability, h, hf]
  · intro ds h hf
    have hs := findAvail_sound t.data ds hf
    refine ⟨by simp [extract_availability, h, hf], hs.1, hs.2.1, ?_⟩
    rw [strContains, data_mk]
    exact (listInfix_iff _ _).mpr hs.2.2

/-- C8 witness: the three concrete cases from the specification — a stock
string with a parenthesized count yields the digits, stock wording without
a count yields Unknown, and the empty (absent) text yields 0. -/
theorem C8_availability_witness :
    extract_availability "" = "0" ∧
    extract_availability "In stock" = "Unknown" ∧
    extract_availability "In stock (22 available)" = String.mk ['2', '2'] :=
  ⟨(C8_availability_amended "").1 (by decide),
   (C8_availability_amended "In stock").2.1 (by decide) (by decide),
   ((C8_availability_amended "In stock (22 available)").2.2 ['2', '2']
      (by decide) (by decide)).1⟩

/-- C8 counterexample: an input that does contain a parenthesized count but
not the stock wording returns `"0"`, not the digits `"22"` the claim's
first case requires. -/
theorem C8_availability_counterexample :
    findAvail ("(22 available)".data) = some ['2', '2'] ∧
    extract_availability "(22 available)" = "0" := by
  refine ⟨by decide, by decide⟩

theorem stopChar_ne_dquote {d : Char} (h : stopChar d = true) : ¬(d = dquote) := by
  intro he
  subst he
  exact absurd h (by decide)

theorem needsQuote_false_stop {c : Char} (h : needsQuote c = false) :
    stopChar c = false := by
  rw [needsQuote, Bool.or_eq_false_iff] at h
  exact h.1

theorem needsQuote_false_ne_dquote {c : Char} (h : needsQuote c = false) :
    ¬(c = dquote) := by
  intro he
  rw [needsQuote, Bool.or_eq_false_iff] at h
  rw [he] at h
  simpa using h.2

theorem parseUnquoted_clean :
    ∀ cs : List Char, (∀ c ∈ cs, stopChar c = false) →
      ∀ (d : Char) (rest : List Char), stopChar d = true →
        parseUnquoted (cs ++ d :: rest) = (cs, d :: rest) := by
  intro cs
  induction cs with
  | nil =>
    intro _ d rest hd
    simp [parseUnquoted, hd]
  | cons c cs2 ih =>
    intro h d rest hd
    have hc : stopChar c = false := h c (List.mem_cons_self _ _)
    simp only [List.cons_append, parseUnquoted, hc, Bool.false_eq_true,
      if_false, List.append_eq]
    rw [ih (fun x hx => h x (List.mem_cons_of_mem _ hx)) d rest hd]

theorem parseQuoted_esc :
    ∀ cs rest : List Char, rest.head? ≠ some dquote →
      parseQuoted (escQuoted cs ++ dquote :: rest) = (cs, rest) := by
  intro cs
  induction cs with
  | nil =>
    intro rest hr
    cases rest with
    | nil => simp [escQuoted, parseQuoted]
    | cons c2 rest2 =>
      have hc2 : ¬(c2 = dquote) := by
        intro he
        exact hr (by simp [he])
      simp [escQuoted, parseQuoted, hc2]
  | cons c cs2 ih =>
    intro rest hr
    by_cases hc : c = dquote
    · subst hc
      have he : escQuoted (dquote :: cs2) = dquote :: dquote :: escQuoted cs2 := by
        simp [escQuoted]
      rw [he]
      have hstep :
          parseQuoted (dquote :: dquote :: (escQuoted cs2 ++ dquote :: rest)) =
            (dquote :: (parseQuoted (escQuoted cs2 ++ dquote :: rest)).1,
             (parseQuoted (escQuoted cs2 ++ dquote :: rest)).2) := by
        simp [parseQuoted]
      simp only [List.cons_append]
      rw [hstep, ih rest hr]
    · have he : escQuoted (c :: cs2) = c :: escQuoted cs2 := by
        simp [escQuoted, hc]
      rw [he]
      have hstep :
          parseQuoted (c :: (escQuoted cs2 ++ dquote :: rest)) =
            (c :: (parseQuoted (escQuoted cs2 ++ dquote :: rest)).1,
             (parseQuoted (escQuoted cs2 ++ dquote :: rest)).2) := by
        rw [parseQuoted.eq_def]
        simp [hc]
      simp only [List.cons_append]
      rw [hstep, ih rest hr]

theorem parseField_enc :
    ∀ (cs : List Char) (d : Char) (rest : List Char), stopChar d = true →
      parseField (encodeFieldChars cs ++ d :: rest) = (cs, d :: rest) := by
  intro cs d rest hd
  by_cases hq : cs.any needsQuote = true
  · have henc : encodeFieldChars cs = dquote :: (escQuoted cs ++ [dquote]) := by
      rw [encodeFieldChars, if_pos hq]
    have hassoc :
        (dquote :: (escQuoted cs ++ [dquote])) ++ d :: rest =
          dquote :: (escQuoted cs ++ dquote :: (d :: rest)) := by
      simp
    rw [henc, hassoc]
    have hne : (d :: rest).head? ≠ some dquote := by
      intro hh
      simp only [List.head?_cons, Option.some_inj] at hh
      exact stopChar_ne_dquote hd hh
    have hpf :
        parseField (dquote :: (escQuoted cs ++ dquote :: (d :: rest))) =
          parseQuoted (escQuoted cs ++ dquote :: (d :: rest)) := by
      simp [parseField]
    rw [hpf, parseQuoted_esc cs (d :: rest) hne]
  · have hq2 : cs.any needsQuote = false := by
      cases hqq : cs.any needsQuote
      · rfl
      · exact absurd hqq hq
    have hall : ∀ c ∈ cs, needsQuote c = false := by
      intro c hc
      cases hcc : needsQuote c
      · rfl
      · exact absurd (List.any_of_mem hc hcc) (by rw [hq2]; simp)
    have henc : encodeFieldChars cs = cs := by
      rw [encodeFieldChars, if_neg hq]
    rw [henc]
    cases cs with
    | nil =>
      have hdq : ¬(d = dquote) := stopChar_ne_dquote hd
      simp [parseField, hdq, parseUnquoted, hd]
    | cons c cs2 =>
      have hcq : needsQuote c = false := hall c (List.mem_cons_self _ _)
      have hcd : ¬(c = dquote) := needsQuote_false_ne_dquote hcq
      have hpf :
          parseField ((c :: cs2) ++ d :: rest) =
            parseUnquoted ((c :: cs2) ++ d :: rest) := by
        simp only [List.cons_append, parseField, hcd, if_false]
      rw [hpf]
      exact parseUnquoted_clean (c :: cs2)
        (fun x hx => needsQuote_false_stop (hall x hx)) d rest hd

theorem parseRecord_enc :
    ∀ (fields : List (List Char)) (rest : List Char), fields ≠ [] →
      parseRecord (encFields fields ++ '\r' :: rest) =
        (fields, '\r' :: rest) := by
  intro fields
  induction fields with
  | nil => intro rest h; cases h rfl
  | cons f fs ih =>
    intro rest _
    cases fs with
    | nil =>
      have hf := parseField_enc f '\r' rest (by decide)
      rw [show encFields [f] = encodeFieldChars f from rfl]
      rw [parseRecord.eq_def, hf]
      have hcond :
          ¬(((f, '\r' :: rest) : List Char × List Char).2.head? = some ',') := by
        simp
      rw [dif_neg hcond]
    | cons g fs2 =>
      have hassoc :
          encFields (f :: g :: fs2) ++ '\r' :: rest =
            encodeFieldChars f ++ ',' :: (encFields (g :: fs2) ++ '\r' :: rest) := by
        rw [show encFields (f :: g :: fs2) =
              encodeFieldChars f ++ ',' :: encFields (g :: fs2) from rfl]
        simp
      have hf := parseField_enc f ','
        (encFields (g :: fs2) ++ '\r' :: rest) (by decide)
      rw [hassoc, parseRecord.eq_def, hf]
      have hcond :
          ((f, ',' :: (encFields (g :: fs2) ++ '\r' :: rest)) :
              List Char × List Char).2.head? = some ',' := rfl
      rw [dif_pos hcond]
      have htail :
          ((f, ',' :: (encFields (g :: fs2) ++ '\r' :: rest)) :
              List Char × List Char).2.tail =
            encFields (g :: fs2) ++ '\r' :: rest := rfl
      rw [htail, ih rest (by simp)]

theorem parseRecords_file :
    ∀ rows : List (List (List Char)), (∀ r ∈ rows, r ≠ []) →
      parseRecords (csvFileChars rows) = rows := by
  intro rows
  induction rows with
  | nil =>
    intro _
    rw [show csvFileChars [] = [] from rfl, parseRecords.eq_def]
    simp
  | cons row rest ih =>
    intro h
    have hrow : row ≠ [] := h row (List.mem_cons_self _ _)
    have hrec := parseRecord_enc row ('\n' :: csvFileChars rest) hrow
    have hfile :
        csvFileChars (row :: rest) =
          encFields row ++ '\r' :: ('\n' :: csvFileChars rest) := by
      rw [show csvFileChars (row :: rest) =
            encodeRowChars row ++ csvFileChars rest from rfl,
          encodeRowChars]
      simp
    rw [hfile, parseRecords.eq_def]
    have hne :
        (encFields row ++ '\r' :: ('\n' :: csvFileChars rest)).isEmpty
          = false := by
      cases hc : encFields row <;> simp [hc]
    rw [hne]
    simp only [Bool.false_eq_true, if_false]
    rw [hrec]
    have h1 :
        ((row, '\r' :: ('\n' :: csvFileChars rest)) :
            List (List Char) × List Char).2.head? = some '\r' := rfl
    rw [dif_pos h1]
    have h2 :
        ((row, '\r' :: ('\n' :: csvFileChars rest)) :
            List (List Char) × List Char).2.tail.head? = some '\n' := rfl
    rw [dif_pos h2]
    have h3 :
        ((row, '\r' :: ('\n' :: csvFileChars rest)) :
            List (List Char) × List Char).2.tail.tail = csvFileChars rest := rfl
    rw [h3, ih (fun r hr => h r (List.mem_cons_of_mem _ hr))]

/-- C9: confirmed.  Writing any list of records with the tabular sink (one
header row in the fixed column order, then one row per record, the file
content fully replacing any previous one) and parsing the file back yields
the header plus exactly one data row per record, each equal to the record's
serialized fields — so title, price and rating round-trip exactly, and
absent optional fields round-trip as the empty string. -/
theorem C9_csv_roundtrip :
    ∀ books : List BookRow,
      readCsv (save_to_csv books) = headerFields :: books.map csvRow ∧
      (books.map csvRow).length = books.length ∧
      ∀ b : BookRow, csvRow b =
        [b.title, b.price, toString b.rating, b.availability, b.product_url,
         b.upc.getD "", b.category.getD "", b.description.getD ""] := by
  intro books
  refine ⟨?_, by simp, fun b => rfl⟩
  have hrows :
      ∀ r ∈ (headerFields :: books.map csvRow).map
          (fun r => r.map String.data), r ≠ [] := by
    intro r hr
    rw [List.mem_map] at hr
    obtain ⟨r2, hr2, rfl⟩ := hr
    rcases List.mem_cons.mp hr2 with he | hm
    · subst he; simp [headerFields]
    · rw [List.mem_map] at hm
      obtain ⟨b, _, rfl⟩ := hm
      simp [csvRow]
  rw [readCsv, save_to_csv, data_mk, parseRecords_file _ hrows,
    List.map_map]
  have hid :
      ((fun r => List.map String.mk r) ∘ fun r : List String =>
        List.map String.data r) = id := by
    funext r
    show List.map String.mk (List.map String.data r) = r
    rw [List.map_map]
    exact List.map_id r
  rw [hid, List.map_id]

end BooksScraper
